import Mathlib

/-!
# Verification of the sineater scripts

A shallow embedding of the Digital Feminist Network `sineater` repository:
Instagram-comment and OCR ingestion into a Google Sheet (`confessor.py`,
`confess-ocr.py`), caption back-fill (`mangeur-de-légende.py`) and the
classification scripts (`sexism-de-légende.py`, `homophobia-de-légende.py`,
`détester-de-légende.py`).

Python values are modelled as follows: spreadsheet cells appended by the
scripts are `Cell` (string or integer), record fields returned by the sheet
client (`get_all_records`) are `PyVal` (missing key / string / number, since
the client numericises numeric-looking cells), machine integers are `Int` or
`Nat` (no overflow is possible in Python), model scores are `ℚ`, and code
that can raise returns `Except`/`Option`.  The remote sheet is a list of
rows; an append adds rows at the end.
-/

/-- A spreadsheet cell value as appended by the scripts: either a string or
an integer (Python `str` / `int` list elements passed to `append_rows`). -/
inductive Cell where
  | str (s : String)
  | int (n : Int)
deriving DecidableEq

/-- A record field as returned by the sheet client for one row: `none` models
a missing key (Python `None` from `dict.get`), `str` a text cell (empty cells
come back as `""`), `num` a numericised cell. -/
inductive PyVal where
  | none
  | str (s : String)
  | num (q : ℚ)
deriving DecidableEq

/-- Python truthiness of a record field: `None`, `""` and `0` are falsy. -/
def PyVal.truthy : PyVal → Bool
  | PyVal.none => false
  | PyVal.str s => s ≠ ""
  | PyVal.num q => q ≠ 0

/-- Python `x is not None` on a record field. -/
def PyVal.isNotNone : PyVal → Bool
  | PyVal.none => false
  | PyVal.str _ => true
  | PyVal.num _ => true

/-- Python `str(x)` on a record field.  A numericised integer cell prints as
its decimal digits; non-integer numbers only need a stand-in here (no script
compares them to anything). -/
def pyStr : PyVal → String
  | PyVal.none => "None"
  | PyVal.str s => s
  | PyVal.num q => if q.den = 1 then toString q.num else toString q

/-- Python `s.strip()`: drop leading and trailing whitespace (a computable
counterpart of `String.trim`). -/
def pyStrip (s : String) : String :=
  String.mk
    ((s.toList.dropWhile Char.isWhitespace).reverse.dropWhile
      Char.isWhitespace).reverse

/-- A Python value used as a set element by the comment-ingestion dedup
check: the JSON `comment["id"]` is an `int`, while the keys fetched from the
sheet by `col_values(3)` are `str`.  Python `in` compares them with `==`,
and `7 == "7"` is `False`, so an `int` never matches a fetched `str` key. -/
inductive PyKey where
  | int (n : Int)
  | str (s : String)
deriving DecidableEq

/-- The apostrophe character (U+0027), prepended by `confessor.py` to IDs to
force text formatting in the sheet. -/
def apos : String := String.mk [Char.ofNat 39]

/-- Two-digit zero padding, as in `strftime` fields `%m %d %H %M %S`. -/
def pad2 (n : Nat) : String :=
  if n < 10 then "0" ++ toString n else toString n

/-- `convert_to_utc` from confessor.py:
`datetime.utcfromtimestamp(t).strftime("%Y-%m-%d %H:%M:%S")` for a
non-negative epoch timestamp, via the standard civil-from-days conversion. -/
def convert_to_utc (t : Nat) : String :=
  let days := t / 86400
  let secs := t % 86400
  let z := days + 719468
  let era := z / 146097
  let doe := z % 146097
  let yoe := (doe - doe / 1460 + doe / 36524 - doe / 146096) / 365
  let doy := doe - (365 * yoe + yoe / 4 - yoe / 100)
  let mp := (5 * doy + 2) / 153
  let d := doy - (153 * mp + 2) / 5 + 1
  let m := if mp < 10 then mp + 3 else mp - 9
  let y := (if m ≤ 2 then yoe + era * 400 + 1 else yoe + era * 400)
  toString y ++ "-" ++ pad2 m ++ "-" ++ pad2 d ++ " " ++
    pad2 (secs / 3600) ++ ":" ++ pad2 (secs % 3600 / 60) ++ ":" ++ pad2 (secs % 60)

/-- Python `s.split(sep)` for a one-character separator: splits on every
occurrence, keeping empty parts (`"".split("-") == [""]`). -/
def pySplitAux (sep : Char) : List Char → List Char → List String
  | [], acc => [String.mk acc.reverse]
  | c :: rest, acc =>
    if c = sep then String.mk acc.reverse :: pySplitAux sep rest []
    else pySplitAux sep rest (c :: acc)

/-- Python `filename.split("-")`. -/
def pySplitDash (s : String) : List String :=
  pySplitAux (Char.ofNat 45) s.toList []

/-- Python `s.replace(".jpg", "")`: delete every non-overlapping occurrence
of `".jpg"`, scanning left to right. -/
def removeJpg : List Char → List Char
  | c1 :: c2 :: c3 :: c4 :: rest =>
    if c1 = Char.ofNat 46 ∧ c2 = Char.ofNat 106 ∧ c3 = Char.ofNat 112 ∧
        c4 = Char.ofNat 103 then
      removeJpg rest
    else c1 :: removeJpg (c2 :: c3 :: c4 :: rest)
  | l => l

/-- Python `"-".join(parts)` on the character level. -/
def pyJoinDash : List String → List Char
  | [] => []
  | [s] => s.toList
  | s :: rest => s.toList ++ Char.ofNat 45 :: pyJoinDash rest

/-- `process_filename` from confess-ocr.py: `parts = filename.split("-")`,
`post_id = parts[1]`, `post_date = "-".join(parts[2:]).replace(".jpg", "")`.
Python raises `IndexError` on `parts[1]` when the split yields fewer than two
parts; the raise is modelled as `Except.error`. -/
def process_filename (filename : String) : Except String (String × String) :=
  match pySplitDash filename with
  | _ :: postId :: rest =>
      Except.ok (postId, String.mk (removeJpg (pyJoinDash rest)))
  | _ => Except.error "IndexError"

/-- The characters of the literal part `"uwaterlooconfessions-"` of the
regular expressions in confessor.py and mangeur-de-légende.py. -/
def confLiteral : List Char := "uwaterlooconfessions-".toList

/-- One attempt of the regex `uwaterlooconfessions-(\d+)-` at the current
position: the literal, then a maximal non-empty digit run, then a hyphen
(backtracking inside `\d+` cannot succeed, since every shorter digit run is
followed by a digit). -/
def matchConfAt (l : List Char) : Option String :=
  if l.take confLiteral.length = confLiteral then
    let rest := l.drop confLiteral.length
    let digits := rest.takeWhile Char.isDigit
    if digits ≠ [] ∧ (rest.drop digits.length).head? = some (Char.ofNat 45) then
      some (String.mk digits)
    else Option.none
  else Option.none

/-- `re.search` scan for `extract_post_id`: try the pattern at each position
left to right. -/
def extractPostIdAux : List Char → Option String
  | [] => Option.none
  | c :: rest =>
    match matchConfAt (c :: rest) with
    | some s => some s
    | Option.none => extractPostIdAux rest

/-- `extract_post_id` from confessor.py:
`re.search(r"uwaterlooconfessions-(\d+)-", filename)`, returning the captured
digit group or `None`. -/
def extract_post_id (filename : String) : Option String :=
  extractPostIdAux filename.toList

/-- `ocr_image` from confess-ocr.py.  The Tesseract engine call either
yields text or raises; the wrapper strips the text and downgrades any engine
failure to the empty string. -/
def ocr_image (engineResult : Except String String) : String :=
  match engineResult with
  | Except.ok text => pyStrip text
  | Except.error _ => ""

/-- Outcome of one `sheet.append_rows` attempt inside
`retry_append_with_backoff`: success, an `APIError` whose text contains
`"429"`, or any other `APIError`. -/
inductive ApiResult where
  | success
  | rateLimited
  | otherError
deriving DecidableEq

/-- The loop of `retry_append_with_backoff`: `outcome i` is what the
`(i+1)`-st append attempt does.  Returns `Except.error ()` when a non-429
error is re-raised; otherwise `(flag, waits)` where `flag` records the
boolean returned and `waits` lists the backoff sleeps `2 ^ i` performed. -/
def retryAux (outcome : Nat → ApiResult) : Nat → Nat → Except Unit (Bool × List Nat)
  | _, 0 => Except.ok (false, [])
  | i, n + 1 =>
    match outcome i with
    | ApiResult.success => Except.ok (true, [])
    | ApiResult.otherError => Except.error ()
    | ApiResult.rateLimited =>
      match retryAux outcome (i + 1) n with
      | Except.ok (b, ws) => Except.ok (b, 2 ^ i :: ws)
      | Except.error e => Except.error e

/-- `retry_append_with_backoff(sheet, rows, retries)` from confessor.py
(the Python default is `retries = 3`). -/
def retry_append_with_backoff (outcome : Nat → ApiResult) (retries : Nat) :
    Except Unit (Bool × List Nat) :=
  retryAux outcome 0 retries

/-- One Instagram comment object from a downloaded JSON file.  The JSON
numeric `id` is a Python `int`. -/
structure Comment where
  id : Int
  created_at : Nat
  username : String
  likes_count : Int
  text : String
deriving DecidableEq

/-- One downloaded comment file: its name and the parsed JSON list. -/
structure CommentFile where
  filename : String
  comments : List Comment
deriving DecidableEq

/-- The `comments` worksheet.  Each row is stored together with its key
(column 3, the numeric comment id): the leading apostrophe written by the
script is a text-format marker consumed by the sheet, and the sheet displays
the id as its decimal string — a bijection, so two rows share a displayed
key exactly when they share the `Int` key. -/
structure CommentSheet where
  rows : List (Int × List Cell)
deriving DecidableEq

/-- `get_existing_comment_ids` from confessor.py: `sheet.col_values(3)`,
the displayed (string) comment ids already in the sheet. -/
def get_existing_comment_ids (sheet : CommentSheet) : List String :=
  sheet.rows.map fun r => toString r.fst

/-- The row built for one comment inside `process_comment_file`:
`[post_timestamp, "'" + post_id, "'" + comment_id, commenter, like_count, text]`. -/
def comment_row (postId : String) (c : Comment) : List Cell :=
  [Cell.str (convert_to_utc c.created_at),
   Cell.str (apos ++ postId),
   Cell.str (apos ++ toString c.id),
   Cell.str c.username,
   Cell.int c.likes_count,
   Cell.str c.text]

/-- The comment loop of `process_comment_file`: skip a comment whose id is
in `existing` (a Python `in` test over `PyKey`s — the fetched keys are
strings, the JSON id an int, so only ids added during the run can match),
otherwise add its row to the batch and its `int` id to the set.  Returns the
final set (as a list, new ids in front) and the batched rows. -/
def processComments (postId : String) :
    List Comment → List PyKey → List PyKey × List (Int × List Cell)
  | [], existing => (existing, [])
  | c :: cs, existing =>
    if PyKey.int c.id ∈ existing then processComments postId cs existing
    else
      let r := processComments postId cs (PyKey.int c.id :: existing)
      (r.fst, (c.id, comment_row postId c) :: r.snd)

/-- `process_comment_file` from confessor.py: extract the post id from the
filename (return unchanged on failure), batch the new comments, and append
them to the sheet in one call. -/
def process_comment_file (file : CommentFile) (sheet : CommentSheet)
    (existing : List PyKey) : CommentSheet × List PyKey :=
  match extract_post_id file.filename with
  | Option.none => (sheet, existing)
  | some pid =>
    let r := processComments pid file.comments existing
    (⟨sheet.rows ++ r.snd⟩, r.fst)

/-- `fnmatch.fnmatch(filename, "uwaterlooconfessions-*comments.json")`:
the name starts with the literal, ends with `comments.json`, and is long
enough for the two not to overlap. -/
def matches_comment_pattern (s : String) : Bool :=
  let l := s.toList
  let suf := "comments.json".toList
  l.take confLiteral.length = confLiteral ∧
    (l.drop (l.length - suf.length) = suf ∧ confLiteral.length + suf.length ≤ l.length)

/-- The file loop of `process_directory`: process each matching comment
file, threading the sheet and the id set. -/
def processFiles : List CommentFile → CommentSheet → List PyKey →
    CommentSheet × List PyKey
  | [], sheet, existing => (sheet, existing)
  | f :: fs, sheet, existing =>
    if matches_comment_pattern f.filename then
      let r := process_comment_file f sheet existing
      processFiles fs r.fst r.snd
    else processFiles fs sheet existing

/-- `process_directory` from confessor.py: fetch the existing comment ids
once — `set(col_values(3))`, a set of strings — then process every matching
file in the directory listing. -/
def process_directory (files : List CommentFile) (sheet : CommentSheet) :
    CommentSheet :=
  (processFiles files sheet
    ((get_existing_comment_ids sheet).map PyKey.str)).fst

/-- One image file in the directory scanned by confess-ocr.py: its name and
what the OCR engine does on it (recognized text, or a raised exception). -/
structure ImageFile where
  name : String
  engine : Except String String

/-- One row of the `confessions` worksheet, in column order
`Filename, Post ID, Post date, OCR text`. -/
structure ConfessionRow where
  filename : String
  post_id : String
  post_date : String
  text : String
deriving DecidableEq

/-- The `confessions` worksheet. -/
structure ConfessionSheet where
  rows : List ConfessionRow
deriving DecidableEq

/-- `sheet.col_values(1)` of the confessions sheet: the Filename column. -/
def confession_filenames (sheet : ConfessionSheet) : List String :=
  sheet.rows.map ConfessionRow.filename

/-- The file loop of `check_and_append_rows`: for each `.jpg` file whose name
is not in the filename list fetched at the start, split the filename, OCR
the image, and append one row.  An `IndexError` from `process_filename`
aborts the run (second component `some e`); rows appended before the abort
stay in the sheet.  The fetched list is never extended during the run. -/
def ocrRun : List ImageFile → List String → ConfessionSheet →
    ConfessionSheet × Option String
  | [], _, sheet => (sheet, Option.none)
  | f :: fs, existing, sheet =>
    if f.name.endsWith ".jpg" then
      if f.name ∈ existing then ocrRun fs existing sheet
      else
        match process_filename f.name with
        | Except.error e => (sheet, some e)
        | Except.ok pd =>
          ocrRun fs existing
            ⟨sheet.rows ++ [⟨f.name, pd.fst, pd.snd, ocr_image f.engine⟩]⟩
    else ocrRun fs existing sheet

/-- `check_and_append_rows` from confess-ocr.py. -/
def check_and_append_rows (files : List ImageFile) (sheet : ConfessionSheet) :
    ConfessionSheet × Option String :=
  ocrRun files (confession_filenames sheet) sheet

/-- The fields of one record that a classification script reads: the comment
column, and the Label / Score columns of that script (`Sexism Label` /
`Sexism Score`, `Homophobia Label` / `Homophobia Score`, `Hate Label` /
`Hate Score`).  All three scripts read them with `row.get(...)`. -/
structure ClassRecord where
  comment : PyVal
  label : PyVal
  score : PyVal
deriving DecidableEq

/-- `not str(row.get(column, "")).strip()`: the comment text is blank.  A
missing key defaults to `""`; `str` of a number is never blank. -/
def comment_is_blank : PyVal → Bool
  | PyVal.none => true
  | PyVal.str s => pyStrip s = ""
  | PyVal.num _ => false

/-- The already-classified test, identical in all three classification
scripts: `row.get("... Label") and row.get("... Score") is not None`. -/
def skip_classified (label score : PyVal) : Bool :=
  label.truthy && score.isNotNone

/-- Label and stored score of the sexism script for one model result
(`raw_label = int(result["label"])`, `score = result["score"]`):
label 0 is `non-sexist` with the score negated, anything else is `sexist`
with the score unchanged. -/
def sexism_label_score (rawLabel : Int) (score : ℚ) : String × ℚ :=
  if rawLabel = 0 then ("non-sexist", -score) else ("sexist", score)

/-- Label and stored score of the homophobia script for one model result:
`LABEL_1` is `non-homophobic` with the score negated, `LABEL_0` is
`homophobic` with the score unchanged.  Any other label leaves
`readable_label` unset on the first classified row (a `NameError` in
Python), modelled as `Option.none`; the model emits only `LABEL_0` and
`LABEL_1`, so the claims never reach that path. -/
def homophobia_label_score (rawLabel : String) (score : ℚ) : Option (String × ℚ) :=
  if rawLabel = "LABEL_1" then some ("non-homophobic", -score)
  else if rawLabel = "LABEL_0" then some ("homophobic", score)
  else Option.none

/-- Label and stored score of the hate-speech script: fold over the result
entries starting from `("nothate", 0.0)`, keeping each entry's score
unchanged (unsigned) for both the `hate` and `nothate` labels. -/
def hate_label_score (entries : List (String × ℚ)) : String × ℚ :=
  entries.foldl
    (fun acc e =>
      if e.fst = "hate" then ("hate", e.snd)
      else if e.fst = "nothate" then ("nothate", e.snd)
      else acc)
    ("nothate", 0)

/-- One pass of the sexism script's row loop over the fetched records, with
`f` the classification model (raw label and score for a comment).  A row is
left untouched when its comment is blank or the already-classified test
fires; otherwise its Label and Score fields are rewritten. -/
def sexism_pass (f : PyVal → Int × ℚ) (rows : List ClassRecord) :
    List ClassRecord :=
  rows.map fun row =>
    if comment_is_blank row.comment then row
    else if skip_classified row.label row.score then row
    else
      let ls := sexism_label_score (f row.comment).fst (f row.comment).snd
      { row with label := PyVal.str ls.fst, score := PyVal.num ls.snd }

/-- One pass of the hate-speech script's row loop, with `f` the model
(result entries for a comment). -/
def hate_pass (f : PyVal → List (String × ℚ)) (rows : List ClassRecord) :
    List ClassRecord :=
  rows.map fun row =>
    if comment_is_blank row.comment then row
    else if skip_classified row.label row.score then row
    else
      let ls := hate_label_score (f row.comment)
      { row with label := PyVal.str ls.fst, score := PyVal.num ls.snd }

/-- One pass of the homophobia script's row loop, with `f` the model.
`Option.none` models the run dying on an unknown model label. -/
def homophobia_pass (f : PyVal → String × ℚ) :
    List ClassRecord → Option (List ClassRecord)
  | [] => some []
  | row :: rest =>
    if comment_is_blank row.comment then
      (homophobia_pass f rest).map (row :: ·)
    else if skip_classified row.label row.score then
      (homophobia_pass f rest).map (row :: ·)
    else
      match homophobia_label_score (f row.comment).fst (f row.comment).snd with
      | Option.none => Option.none
      | some ls =>
        (homophobia_pass f rest).map
          ({ row with label := PyVal.str ls.fst, score := PyVal.num ls.snd } :: ·)

/-- One pending cell update of a classification script:
`{"range": rowcol_to_a1(row, col), "values": [[value]]}`. -/
structure CellUpdate where
  row : Nat
  col : Nat
  value : Cell
deriving DecidableEq

/-- Observable remote/timing actions of the classification row loop:
a `worksheet.batch_update(updates)` call and a `time.sleep` call. -/
inductive BatchEvent where
  | flush (batch : List CellUpdate)
  | sleep (seconds : ℚ)
deriving DecidableEq

/-- The batching skeleton of the classification row loop, identical in all
three scripts.  Each input element is what one row contributes: `none` for a
skipped row, or the (label, score) pair of cell updates.  After adding a
pair, `if len(updates) >= batch_size * 2` flushes the list, empties it and
sleeps 2.5 seconds; after the loop a non-empty remainder is flushed once
without a sleep. -/
def classifyLoop (batchSize : Nat) :
    List (Option (CellUpdate × CellUpdate)) → List CellUpdate → List BatchEvent
  | [], updates => if updates = [] then [] else [BatchEvent.flush updates]
  | Option.none :: rest, updates => classifyLoop batchSize rest updates
  | some u :: rest, updates =>
    let ups := updates ++ [u.fst, u.snd]
    if batchSize * 2 ≤ ups.length then
      BatchEvent.flush ups :: BatchEvent.sleep (5 / 2) :: classifyLoop batchSize rest []
    else classifyLoop batchSize rest ups

/-- The batches written by `batch_update` calls, in order. -/
def flushedBatches (events : List BatchEvent) : List (List CellUpdate) :=
  events.filterMap fun e =>
    match e with
    | BatchEvent.flush b => some b
    | BatchEvent.sleep _ => Option.none

/-- The trace shape of the row loop: every flush is followed by a 2.5-second
sleep, except a final flush (the after-loop remainder). -/
def wellFormedTrace : List BatchEvent → Bool
  | [] => true
  | [BatchEvent.flush _] => true
  | BatchEvent.flush _ :: BatchEvent.sleep s :: rest =>
      (s = 5 / 2) && wellFormedTrace rest
  | _ => false

/-- Consume exactly `n` digit characters (regex `\d{n}`). -/
def expectDigits (n : Nat) (l : List Char) : Option (List Char) :=
  if (l.take n).length = n ∧ (l.take n).all Char.isDigit then some (l.drop n)
  else Option.none

/-- Consume an exact literal. -/
def expectLit (lit : List Char) (l : List Char) : Option (List Char) :=
  if l.take lit.length = lit then some (l.drop lit.length) else Option.none

/-- The date tail of the caption regex after the captured group and its
hyphen: `\d{4}-\d{2}-\d{2}_\d{2}-\d{2}-\d{2}-UTC\.txt` (no anchor, so
trailing characters are allowed). -/
def matchCaptionTail (l : List Char) : Bool :=
  (do
    let l ← expectDigits 4 l
    let l ← expectLit "-".toList l
    let l ← expectDigits 2 l
    let l ← expectLit "-".toList l
    let l ← expectDigits 2 l
    let l ← expectLit "_".toList l
    let l ← expectDigits 2 l
    let l ← expectLit "-".toList l
    let l ← expectDigits 2 l
    let l ← expectLit "-".toList l
    let l ← expectDigits 2 l
    let _ ← expectLit "-UTC.txt".toList l
    pure ()).isSome

/-- One attempt of the caption regex
`uwaterlooconfessions-(\d+)-\d{4}-\d{2}-\d{2}_\d{2}-\d{2}-\d{2}-UTC\.txt`
at the current position. -/
def matchCaptionAt (l : List Char) : Option String :=
  if l.take confLiteral.length = confLiteral then
    let rest := l.drop confLiteral.length
    let digits := rest.takeWhile Char.isDigit
    let after := rest.drop digits.length
    if digits ≠ [] ∧ after.head? = some (Char.ofNat 45) ∧
        matchCaptionTail (after.drop 1) then
      some (String.mk digits)
    else Option.none
  else Option.none

/-- `re.search` scan for `get_post_id_from_filename`. -/
def getPostIdAux : List Char → Option String
  | [] => Option.none
  | c :: rest =>
    match matchCaptionAt (c :: rest) with
    | some s => some s
    | Option.none => getPostIdAux rest

/-- `get_post_id_from_filename` from mangeur-de-légende.py. -/
def get_post_id_from_filename (filename : String) : Option String :=
  getPostIdAux filename.toList

/-- One record of the confessions sheet as seen by the caption script: the
`Post ID` and `Caption` fields it reads, and the row's remaining cells,
which `update_cell(row_idx, 4, caption)` never touches (the script assumes
Caption is column 4). -/
structure CaptionRow where
  post_id : PyVal
  caption : PyVal
  others : List Cell
deriving DecidableEq

/-- The row scan of `process_caption_file`: find the first row with
`str(row["Post ID"]) == post_id and not row["Caption"]`, write the caption
into its Caption cell, and return at once; if no row qualifies, change
nothing. -/
def update_caption (postId caption : String) : List CaptionRow → List CaptionRow
  | [] => []
  | r :: rs =>
    if pyStr r.post_id = postId ∧ ¬ r.caption.truthy then
      { r with caption := PyVal.str caption } :: rs
    else r :: update_caption postId caption rs

/-- `process_caption_file` from mangeur-de-légende.py: extract the post id
from the filename (skip the file when the pattern does not match), strip the
file content, and update at most one Caption cell. -/
def process_caption_file (filename content : String)
    (sheet : List CaptionRow) : List CaptionRow :=
  match get_post_id_from_filename filename with
  | Option.none => sheet
  | some pid => update_caption pid (pyStrip content) sheet

/-- What a script's `__main__` block does before real work: whether the
usage message is printed and the process exit code. -/
structure ScriptExit where
  usage : Bool
  code : Nat
deriving DecidableEq

/-- The `__main__` block of confessor.py: `if len(sys.argv) != 3` print the
usage line and `sys.exit(1)`; otherwise run (exit 0 when processing
succeeds). -/
def confessor_cli (argc : Nat) : ScriptExit :=
  if argc ≠ 3 then ⟨true, 1⟩ else ⟨false, 0⟩

/-- The `__main__` block of confess-ocr.py: wrong argument count prints the
usage line and exits 1; then an invalid directory prints an error (not the
usage line) and exits 1. -/
def confess_ocr_cli (argc : Nat) (dirOk : Bool) : ScriptExit :=
  if argc ≠ 3 then ⟨true, 1⟩
  else if ¬ dirOk then ⟨false, 1⟩
  else ⟨false, 0⟩

/-- The `__main__` block of mangeur-de-légende.py: on a wrong argument count
the usage line is printed, but there is no `sys.exit(1)` — the `if`/`else`
just falls through, so the interpreter exits normally with code 0. -/
def mangeur_cli (argc : Nat) : ScriptExit :=
  if argc ≠ 3 then ⟨true, 0⟩ else ⟨false, 0⟩

/-- C9: for every image, `ocr_image` returns the recognized text stripped of
surrounding whitespace, and on any engine failure it returns the empty
string instead of propagating the exception (the function is total: there is
no raising path). -/
theorem c9_ocr_never_raises :
    ∀ (t e : String), ocr_image (Except.ok t) = pyStrip t ∧
      ocr_image (Except.error e) = "" :=
  fun _ _ => ⟨rfl, rfl⟩

/-- C6 counterexample: invoked with a wrong number of arguments (argc = 2),
the caption back-fill script prints the usage message but exits with
code 0, not 1 — its `__main__` has no `sys.exit(1)`. -/
theorem c6_mangeur_exits_zero :
    mangeur_cli 2 = ⟨true, 0⟩ ∧ (mangeur_cli 2).code ≠ 1 := by
  constructor
  · rfl
  · intro h
    simp [mangeur_cli] at h

/-- C6 (amended): on a wrong number of positional arguments, confessor.py
and confess-ocr.py print a usage message and exit with code 1, while
mangeur-de-légende.py prints its usage message but exits with code 0. -/
theorem c6_usage_and_exit_codes :
    ∀ argc : Nat, argc ≠ 3 →
      confessor_cli argc = ⟨true, 1⟩ ∧
      (∀ dirOk, confess_ocr_cli argc dirOk = ⟨true, 1⟩) ∧
      mangeur_cli argc = ⟨true, 0⟩ := by
  intro argc h
  refine ⟨?_, fun dirOk => ?_, ?_⟩ <;>
    simp [confessor_cli, confess_ocr_cli, mangeur_cli, h]

/-- Witness for C6 at argc = 2. -/
theorem c6_usage_and_exit_codes_witness :
    (2 : Nat) ≠ 3 ∧ confessor_cli 2 = ⟨true, 1⟩ ∧
      confess_ocr_cli 2 true = ⟨true, 1⟩ ∧ mangeur_cli 2 = ⟨true, 0⟩ := by
  have h := c6_usage_and_exit_codes 2 (by decide)
  exact ⟨by decide, h.1, h.2.1 true, h.2.2⟩

/-- The comment file of the C7 example: post id 4821 in the name, one
comment object `{"id": 7, "created_at": 1672531200,
"owner": {"username": "x"}, "likes_count": 2, "text": "hi"}`. -/
def c7_file : CommentFile :=
  ⟨"uwaterlooconfessions-4821-2023-01-05_10-20-30-UTC_comments.json",
   [⟨7, 1672531200, "x", 2, "hi"⟩]⟩

/-- C7: the epoch timestamp 1672531200 converts to the UTC string
"2023-01-01 00:00:00", and on an empty sheet the ingestion appends exactly
one row `[timestamp, "'4821", "'7", "x", 2, "hi"]` with both IDs prefixed by
an apostrophe. -/
theorem c7_example_row :
    convert_to_utc 1672531200 = "2023-01-01 00:00:00" ∧
    process_comment_file c7_file ⟨[]⟩ [] =
      (⟨[(7, [Cell.str "2023-01-01 00:00:00", Cell.str (apos ++ "4821"),
          Cell.str (apos ++ "7"), Cell.str "x", Cell.int 2, Cell.str "hi"])]⟩,
       [PyKey.int 7]) := by
  exact ⟨rfl, rfl⟩

/-- If every remaining attempt is rate-limited, the retry loop sleeps
`2 ^ attempt` for each one and returns `False` without raising. -/
lemma retryAux_all_rate (outcome : Nat → ApiResult) :
    ∀ (n i : Nat), (∀ j, j < n → outcome (i + j) = ApiResult.rateLimited) →
      retryAux outcome i n =
        Except.ok (false, (List.range n).map fun j => 2 ^ (i + j)) := by
  intro n
  induction n with
  | zero => intro i _; rfl
  | succ m ih =>
    intro i h
    have h0 : outcome i = ApiResult.rateLimited := by
      have := h 0 (Nat.succ_pos m)
      simpa using this
    have hrec := ih (i + 1) (fun j hj => by
      have := h (j + 1) (by omega)
      rwa [show i + (j + 1) = i + 1 + j by omega] at this)
    simp only [retryAux, h0, hrec]
    congr 1
    rw [List.range_succ_eq_map, List.map_cons, List.map_map]
    simp only [Nat.add_zero]
    congr 1
    congr 1
    apply List.map_congr_left
    intro a _
    simp only [Function.comp_apply]
    congr 1
    omega

/-- If the first `k` attempts are rate-limited and attempt `k` succeeds
within the retry budget, the loop returns `True` after backoff sleeps
`2 ^ i, ..., 2 ^ (i + k - 1)`. -/
lemma retryAux_success (outcome : Nat → ApiResult) :
    ∀ (k n i : Nat), k < n →
      (∀ j, j < k → outcome (i + j) = ApiResult.rateLimited) →
      outcome (i + k) = ApiResult.success →
      retryAux outcome i n =
        Except.ok (true, (List.range k).map fun j => 2 ^ (i + j)) := by
  intro k
  induction k with
  | zero =>
    intro n i hn _ hs
    match n, hn with
    | m + 1, _ =>
      simp only [Nat.add_zero] at hs
      simp [retryAux, hs]
  | succ k ih =>
    intro n i hn h hs
    match n, hn with
    | m + 1, hn =>
      have h0 : outcome i = ApiResult.rateLimited := by
        have := h 0 (Nat.succ_pos k)
        simpa using this
      have hrec := ih m (i + 1) (by omega)
        (fun j hj => by
          have := h (j + 1) (by omega)
          rwa [show i + (j + 1) = i + 1 + j by omega] at this)
        (by rwa [show i + 1 + k = i + (k + 1) by omega])
      simp only [retryAux, h0, hrec]
      congr 1
      rw [List.range_succ_eq_map, List.map_cons, List.map_map]
      simp only [Nat.add_zero]
      congr 1
      congr 1
      apply List.map_congr_left
      intro a _
      simp only [Function.comp_apply]
      congr 1
      omega

/-- If the first `k` attempts are rate-limited and attempt `k` hits a
non-429 error within the budget, the loop re-raises. -/
lemma retryAux_fatal (outcome : Nat → ApiResult) :
    ∀ (k n i : Nat), k < n →
      (∀ j, j < k → outcome (i + j) = ApiResult.rateLimited) →
      outcome (i + k) = ApiResult.otherError →
      retryAux outcome i n = Except.error () := by
  intro k
  induction k with
  | zero =>
    intro n i hn _ hs
    match n, hn with
    | m + 1, _ =>
      simp only [Nat.add_zero] at hs
      simp [retryAux, hs]
  | succ k ih =>
    intro n i hn h hs
    match n, hn with
    | m + 1, hn =>
      have h0 : outcome i = ApiResult.rateLimited := by
        have := h 0 (Nat.succ_pos k)
        simpa using this
      have hrec := ih m (i + 1) (by omega)
        (fun j hj => by
          have := h (j + 1) (by omega)
          rwa [show i + (j + 1) = i + 1 + j by omega] at this)
        (by rwa [show i + 1 + k = i + (k + 1) by omega])
      simp [retryAux, h0, hrec]

/-- C2: behaviour of `retry_append_with_backoff` (Python default
`retries = 3`).  A rate-limited attempt `i` sleeps `2 ^ i` seconds and
retries; a success at attempt `k` after `k` rate-limit failures within the
budget returns `True`; `retries` consecutive rate-limit failures return
`False` without raising; a non-429 error is re-raised at once, with no
further sleeps or retries. -/
theorem c2_retry_with_backoff (outcome : Nat → ApiResult) (retries : Nat) :
    (∀ k, k < retries → (∀ j, j < k → outcome j = ApiResult.rateLimited) →
      outcome k = ApiResult.success →
      retry_append_with_backoff outcome retries =
        Except.ok (true, (List.range k).map fun j => 2 ^ j)) ∧
    ((∀ j, j < retries → outcome j = ApiResult.rateLimited) →
      retry_append_with_backoff outcome retries =
        Except.ok (false, (List.range retries).map fun j => 2 ^ j)) ∧
    (∀ k, k < retries → (∀ j, j < k → outcome j = ApiResult.rateLimited) →
      outcome k = ApiResult.otherError →
      retry_append_with_backoff outcome retries = Except.error ()) := by
  refine ⟨fun k hk h hs => ?_, fun h => ?_, fun k hk h hs => ?_⟩
  · have := retryAux_success outcome k retries 0 hk
      (fun j hj => by simpa using h j hj) (by simpa using hs)
    simpa [retry_append_with_backoff] using this
  · have := retryAux_all_rate outcome retries 0
      (fun j hj => by simpa using h j hj)
    simpa [retry_append_with_backoff] using this
  · have := retryAux_fatal outcome k retries 0 hk
      (fun j hj => by simpa using h j hj) (by simpa using hs)
    simpa [retry_append_with_backoff] using this

/-- Witness for C2: two 429s then a success inside the default budget of 3
gives `True` with backoff sleeps 1 and 2 seconds. -/
theorem c2_retry_with_backoff_witness :
    retry_append_with_backoff
        (fun i => if i < 2 then ApiResult.rateLimited else ApiResult.success) 3
      = Except.ok (true, [1, 2]) := by
  have h := (c2_retry_with_backoff
      (fun i => if i < 2 then ApiResult.rateLimited else ApiResult.success) 3).1
      2 (by omega) (fun j hj => by interval_cases j <;> rfl) (by rfl)
  simpa using h

/-- The hate-speech fold keeps a label in {hate, nothate} and a score that
stays non-negative when every entry's score is. -/
lemma hate_fold_spec (entries : List (String × ℚ)) :
    ∀ acc : String × ℚ, (∀ e ∈ entries, 0 ≤ e.snd) → 0 ≤ acc.snd →
      (acc.fst = "hate" ∨ acc.fst = "nothate") →
      0 ≤ (entries.foldl
          (fun acc e =>
            if e.fst = "hate" then ("hate", e.snd)
            else if e.fst = "nothate" then ("nothate", e.snd)
            else acc) acc).snd ∧
      ((entries.foldl
          (fun acc e =>
            if e.fst = "hate" then ("hate", e.snd)
            else if e.fst = "nothate" then ("nothate", e.snd)
            else acc) acc).fst = "hate" ∨
       (entries.foldl
          (fun acc e =>
            if e.fst = "hate" then ("hate", e.snd)
            else if e.fst = "nothate" then ("nothate", e.snd)
            else acc) acc).fst = "nothate") := by
  induction entries with
  | nil => intro acc _ h1 h2; exact ⟨h1, h2⟩
  | cons e rest ih =>
    intro acc hes h1 h2
    simp only [List.foldl_cons]
    by_cases hh : e.fst = "hate"
    · simp only [hh, if_pos rfl]
      exact ih ("hate", e.snd) (fun x hx => hes x (List.mem_cons_of_mem e hx))
        (hes e (List.mem_cons_self e rest)) (Or.inl rfl)
    · by_cases hn : e.fst = "nothate"
      · simp only [hh, hn, if_neg, if_pos rfl, ite_false]
        exact ih ("nothate", e.snd) (fun x hx => hes x (List.mem_cons_of_mem e hx))
          (hes e (List.mem_cons_self e rest)) (Or.inr rfl)
      · simp only [hh, hn, ite_false]
        exact ih acc (fun x hx => hes x (List.mem_cons_of_mem e hx)) h1 h2

/-- C4: score-sign convention per classifier, for any non-negative model
score.  Sexism: `non-sexist` stores a score ≤ 0 and `sexist` a score ≥ 0.
Homophobia: `non-homophobic` stores ≤ 0 and `homophobic` ≥ 0.  The
hate-speech script keeps the score unsigned (≥ 0) for both `hate` and
`nothate`. -/
theorem c4_score_sign_convention :
    (∀ (raw : Int) (s : ℚ), 0 ≤ s →
      ((sexism_label_score raw s).fst = "non-sexist" →
        (sexism_label_score raw s).snd ≤ 0) ∧
      ((sexism_label_score raw s).fst = "sexist" →
        0 ≤ (sexism_label_score raw s).snd)) ∧
    (∀ (lab : String) (s : ℚ) (out : String × ℚ), 0 ≤ s →
      homophobia_label_score lab s = some out →
      (out.fst = "non-homophobic" → out.snd ≤ 0) ∧
      (out.fst = "homophobic" → 0 ≤ out.snd)) ∧
    (∀ entries : List (String × ℚ), (∀ e ∈ entries, 0 ≤ e.snd) →
      0 ≤ (hate_label_score entries).snd ∧
      ((hate_label_score entries).fst = "hate" ∨
       (hate_label_score entries).fst = "nothate")) := by
  refine ⟨fun raw s hs => ?_, fun lab s out hs hout => ?_, fun entries hes => ?_⟩
  · by_cases h : raw = 0
    · simp only [sexism_label_score, if_pos h]
      exact ⟨fun _ => by linarith, fun hlab => by simp at hlab⟩
    · simp only [sexism_label_score, if_neg h]
      exact ⟨fun hlab => by simp at hlab, fun _ => hs⟩
  · by_cases h1 : lab = "LABEL_1"
    · simp only [homophobia_label_score, if_pos h1, Option.some_inj] at hout
      subst hout
      exact ⟨fun _ => by simp; linarith, fun hlab => by simp at hlab⟩
    · by_cases h0 : lab = "LABEL_0"
      · simp only [homophobia_label_score, if_neg h1, if_pos h0,
          Option.some_inj] at hout
        subst hout
        exact ⟨fun hlab => by simp at hlab, fun _ => hs⟩
      · simp [homophobia_label_score, h1, h0] at hout
  · exact hate_fold_spec entries ("nothate", 0) hes le_rfl (Or.inr rfl)

/-- Witness for C4 at score 1/2 (all three classifiers). -/
theorem c4_score_sign_convention_witness :
    ((sexism_label_score 0 (1/2)).fst = "non-sexist" →
      (sexism_label_score 0 (1/2)).snd ≤ 0) ∧
    (((("non-homophobic", -(1/2))) : String × ℚ).fst = "non-homophobic" →
      ((("non-homophobic", -(1/2))) : String × ℚ).snd ≤ 0) ∧
    0 ≤ (hate_label_score [("hate", 1/2)]).snd := by
  refine ⟨(c4_score_sign_convention.1 0 (1/2) (by norm_num)).1, ?_, ?_⟩
  · exact (c4_score_sign_convention.2.1 "LABEL_1" (1/2)
      ("non-homophobic", -(1/2)) (by norm_num) (by rfl)).1
  · exact (c4_score_sign_convention.2.2 [("hate", 1/2)]
      (by intro e he; simp at he; rw [he]; norm_num)).1

/-- C3 counterexample: a row whose Label is populated but whose Score cell
is empty (the sheet client returns `""`, which `is not None`) is skipped by
the code — the pass leaves it untouched and never recomputes — although the
claim says a row is skipped only when both Label and Score are populated. -/
theorem c3_skip_despite_empty_score :
    skip_classified (PyVal.str "sexist") (PyVal.str "") = true ∧
    (PyVal.str "").truthy = false ∧
    sexism_pass (fun _ => (1, 1))
        [⟨PyVal.str "hey", PyVal.str "sexist", PyVal.str ""⟩]
      = [⟨PyVal.str "hey", PyVal.str "sexist", PyVal.str ""⟩] := by
  decide

/-- The sexism label is never the empty string. -/
lemma sexism_label_ne_empty (raw : Int) (s : ℚ) :
    (sexism_label_score raw s).fst ≠ "" := by
  unfold sexism_label_score
  split <;> simp

/-- The hate-speech fold keeps a label in {hate, nothate} for any such
starting accumulator. -/
lemma hate_fold_label (entries : List (String × ℚ)) :
    ∀ acc : String × ℚ, (acc.fst = "hate" ∨ acc.fst = "nothate") →
      ((entries.foldl
          (fun acc e =>
            if e.fst = "hate" then ("hate", e.snd)
            else if e.fst = "nothate" then ("nothate", e.snd)
            else acc) acc).fst = "hate" ∨
       (entries.foldl
          (fun acc e =>
            if e.fst = "hate" then ("hate", e.snd)
            else if e.fst = "nothate" then ("nothate", e.snd)
            else acc) acc).fst = "nothate") := by
  induction entries with
  | nil => intro acc h; exact h
  | cons e rest ih =>
    intro acc h
    simp only [List.foldl_cons]
    by_cases hh : e.fst = "hate"
    · simp only [hh, if_pos rfl]
      exact ih ("hate", e.snd) (Or.inl rfl)
    · by_cases hn : e.fst = "nothate"
      · simp only [hh, hn, ite_false, if_pos rfl]
        exact ih ("nothate", e.snd) (Or.inr rfl)
      · simp only [hh, hn, ite_false]
        exact ih acc h

/-- The hate-speech label is never the empty string. -/
lemma hate_label_ne_empty (entries : List (String × ℚ)) :
    (hate_label_score entries).fst ≠ "" := by
  rcases hate_fold_label entries ("nothate", 0) (Or.inr rfl) with h | h <;>
    · unfold hate_label_score
      rw [h]
      decide

/-- The homophobia label, when defined, is never the empty string. -/
lemma homophobia_label_ne_empty (lab : String) (s : ℚ) (ls : String × ℚ) :
    homophobia_label_score lab s = some ls → ls.fst ≠ "" := by
  unfold homophobia_label_score
  intro h
  split at h
  · cases h; simp
  · split at h
    · cases h; simp
    · cases h

/-- A freshly written (label, score) pair always passes the
already-classified test. -/
lemma skip_fresh (lab : String) (q : ℚ) (h : lab ≠ "") :
    skip_classified (PyVal.str lab) (PyVal.num q) = true := by
  simp [skip_classified, PyVal.truthy, PyVal.isNotNone, h]

/-- The sexism pass changes nothing on a second run. -/
lemma sexism_pass_idem (f : PyVal → Int × ℚ) (rows : List ClassRecord) :
    sexism_pass f (sexism_pass f rows) = sexism_pass f rows := by
  unfold sexism_pass
  rw [List.map_map]
  apply List.map_congr_left
  intro row _
  simp only [Function.comp_apply]
  by_cases hb : comment_is_blank row.comment = true
  · simp [hb]
  · by_cases hs : skip_classified row.label row.score = true
    · simp [hb, hs]
    · have hskip := skip_fresh
        (sexism_label_score (f row.comment).fst (f row.comment).snd).fst
        (sexism_label_score (f row.comment).fst (f row.comment).snd).snd
        (sexism_label_ne_empty _ _)
      simp [hb, hs, hskip]

/-- The hate-speech pass changes nothing on a second run. -/
lemma hate_pass_idem (g : PyVal → List (String × ℚ)) (rows : List ClassRecord) :
    hate_pass g (hate_pass g rows) = hate_pass g rows := by
  unfold hate_pass
  rw [List.map_map]
  apply List.map_congr_left
  intro row _
  simp only [Function.comp_apply]
  by_cases hb : comment_is_blank row.comment = true
  · simp [hb]
  · by_cases hs : skip_classified row.label row.score = true
    · simp [hb, hs]
    · have hskip := skip_fresh (hate_label_score (g row.comment)).fst
        (hate_label_score (g row.comment)).snd (hate_label_ne_empty _)
      simp [hb, hs, hskip]

/-- The homophobia pass changes nothing on a second run (when the first run
did not die on an unknown model label). -/
lemma homophobia_pass_idem (f : PyVal → String × ℚ) :
    ∀ (rows out : List ClassRecord), homophobia_pass f rows = some out →
      homophobia_pass f out = some out := by
  intro rows
  induction rows with
  | nil =>
    intro out h
    simp only [homophobia_pass, Option.some_inj] at h
    subst h
    rfl
  | cons row rest ih =>
    intro out h
    simp only [homophobia_pass] at h
    by_cases hb : comment_is_blank row.comment = true
    · rw [if_pos hb] at h
      cases ho : homophobia_pass f rest with
      | none => rw [ho] at h; cases h
      | some o =>
        rw [ho] at h
        simp only [Option.map_some', Option.some_inj] at h
        subst h
        simp [homophobia_pass, hb, ih o ho]
    · by_cases hs : skip_classified row.label row.score = true
      · rw [if_neg hb, if_pos hs] at h
        cases ho : homophobia_pass f rest with
        | none => rw [ho] at h; cases h
        | some o =>
          rw [ho] at h
          simp only [Option.map_some', Option.some_inj] at h
          subst h
          simp [homophobia_pass, hb, hs, ih o ho]
      · rw [if_neg hb, if_neg hs] at h
        cases hls : homophobia_label_score (f row.comment).fst
            (f row.comment).snd with
        | none => rw [hls] at h; cases h
        | some ls =>
          rw [hls] at h
          cases ho : homophobia_pass f rest with
          | none => rw [ho] at h; cases h
          | some o =>
            rw [ho] at h
            simp only [Option.map_some', Option.some_inj] at h
            subst h
            have hskip := skip_fresh ls.fst ls.snd
              (homophobia_label_ne_empty _ _ _ hls)
            simp [homophobia_pass, hb, hskip, ih o ho]

/-- A single row passes through the sexism pass unchanged exactly when the
code's skip conditions fire. -/
lemma sexism_pass_single (f : PyVal → Int × ℚ) (row : ClassRecord) :
    sexism_pass f [row] = [row] ↔
      (comment_is_blank row.comment = true ∨
       skip_classified row.label row.score = true) := by
  constructor
  · intro h
    by_contra hc
    push_neg at hc
    obtain ⟨hb, hs⟩ := hc
    simp only [sexism_pass, List.map_cons, List.map_nil, hb, hs, ite_false,
      if_false, List.cons.injEq, and_true] at h
    have hlab := congrArg ClassRecord.label h
    have hsc := congrArg ClassRecord.score h
    simp only at hlab hsc
    apply hs
    rw [← hlab, ← hsc]
    exact skip_fresh _ _ (sexism_label_ne_empty _ _)
  · intro h
    rcases h with hb | hs
    · simp [sexism_pass, hb]
    · simp [sexism_pass, hs]

/-- A single row passes through the hate-speech pass unchanged exactly when
the code's skip conditions fire. -/
lemma hate_pass_single (g : PyVal → List (String × ℚ)) (row : ClassRecord) :
    hate_pass g [row] = [row] ↔
      (comment_is_blank row.comment = true ∨
       skip_classified row.label row.score = true) := by
  constructor
  · intro h
    by_contra hc
    push_neg at hc
    obtain ⟨hb, hs⟩ := hc
    simp only [hate_pass, List.map_cons, List.map_nil, hb, hs, ite_false,
      if_false, List.cons.injEq, and_true] at h
    have hlab := congrArg ClassRecord.label h
    have hsc := congrArg ClassRecord.score h
    simp only at hlab hsc
    apply hs
    rw [← hlab, ← hsc]
    exact skip_fresh _ _ (hate_label_ne_empty _)
  · intro h
    rcases h with hb | hs
    · simp [hate_pass, hb]
    · simp [hate_pass, hs]

/-- C3 (amended): in every classification script, a row is left unchanged
exactly when its comment is blank or the code's already-classified test
fires — its Label field truthy and its Score key present (an empty Score
cell still counts, since the client returns `""` and `"" is not None`); in
particular rows with both fields populated are skipped, and a second run of
any of the three scripts leaves every row of the first run's output
unchanged. -/
theorem c3_skip_and_second_run :
    (∀ (f : PyVal → Int × ℚ) (row : ClassRecord),
      sexism_pass f [row] = [row] ↔
        (comment_is_blank row.comment = true ∨
         skip_classified row.label row.score = true)) ∧
    (∀ (g : PyVal → List (String × ℚ)) (row : ClassRecord),
      hate_pass g [row] = [row] ↔
        (comment_is_blank row.comment = true ∨
         skip_classified row.label row.score = true)) ∧
    (∀ (f : PyVal → Int × ℚ) (rows : List ClassRecord),
      sexism_pass f (sexism_pass f rows) = sexism_pass f rows) ∧
    (∀ (g : PyVal → List (String × ℚ)) (rows : List ClassRecord),
      hate_pass g (hate_pass g rows) = hate_pass g rows) ∧
    (∀ (f : PyVal → String × ℚ) (rows out : List ClassRecord),
      homophobia_pass f rows = some out → homophobia_pass f out = some out) :=
  ⟨sexism_pass_single, hate_pass_single, sexism_pass_idem, hate_pass_idem,
   homophobia_pass_idem⟩

/-- Witness for C3: a populated row is skipped, and on a freshly classified
row a second homophobia pass changes nothing. -/
theorem c3_skip_and_second_run_witness :
    sexism_pass (fun _ => (1, 1))
        [⟨PyVal.str "hey", PyVal.str "sexist", PyVal.num 1⟩]
      = [⟨PyVal.str "hey", PyVal.str "sexist", PyVal.num 1⟩] ∧
    homophobia_pass (fun _ => ("LABEL_0", 1))
        [⟨PyVal.str "hey", PyVal.str "homophobic", PyVal.num 1⟩]
      = some [⟨PyVal.str "hey", PyVal.str "homophobic", PyVal.num 1⟩] := by
  constructor
  · exact (c3_skip_and_second_run.1 (fun _ => (1, 1))
      ⟨PyVal.str "hey", PyVal.str "sexist", PyVal.num 1⟩).mpr
      (Or.inr (by decide))
  · exact c3_skip_and_second_run.2.2.2.2 (fun _ => ("LABEL_0", 1))
      [⟨PyVal.str "hey", PyVal.str "", PyVal.str ""⟩]
      [⟨PyVal.str "hey", PyVal.str "homophobic", PyVal.num 1⟩] (by decide)

/-- All cell updates the row loop generates, in order: two per classified
row, none for a skipped row. -/
def producedUpdates (rows : List (Option (CellUpdate × CellUpdate))) :
    List CellUpdate :=
  rows.foldr
    (fun o acc =>
      match o with
      | Option.none => acc
      | some u => u.fst :: u.snd :: acc)
    []

lemma flushedBatches_nil : flushedBatches [] = [] := rfl

lemma flushedBatches_flush (b : List CellUpdate) (rest : List BatchEvent) :
    flushedBatches (BatchEvent.flush b :: rest) = b :: flushedBatches rest := rfl

lemma flushedBatches_sleep (s : ℚ) (rest : List BatchEvent) :
    flushedBatches (BatchEvent.sleep s :: rest) = flushedBatches rest := rfl

/-- Concatenating the flushed batches recovers exactly the pending updates
plus everything the remaining rows produce: each update is written once. -/
lemma classifyLoop_join (B : Nat) :
    ∀ (rows : List (Option (CellUpdate × CellUpdate))) (ups : List CellUpdate),
      (flushedBatches (classifyLoop B rows ups)).flatten =
        ups ++ producedUpdates rows := by
  intro rows
  induction rows with
  | nil =>
    intro ups
    simp only [classifyLoop]
    split
    · simp_all [flushedBatches_nil, producedUpdates]
    · simp [flushedBatches_flush, flushedBatches_nil, producedUpdates]
  | cons o rest ih =>
    intro ups
    cases o with
    | none =>
      simp only [classifyLoop, ih ups, producedUpdates, List.foldr_cons]
    | some u =>
      simp only [classifyLoop]
      split
      · rw [flushedBatches_flush, flushedBatches_sleep, List.flatten_cons, ih []]
        simp [producedUpdates, List.append_assoc]
      · rw [ih (ups ++ [u.fst, u.snd])]
        simp [producedUpdates, List.append_assoc]

/-- Every flushed batch is non-empty and no larger than `batch_size * 2`
cell updates. -/
lemma classifyLoop_bound (B : Nat) (hB : 1 ≤ B) :
    ∀ (rows : List (Option (CellUpdate × CellUpdate))) (ups : List CellUpdate),
      ups.length % 2 = 0 → ups.length + 2 ≤ B * 2 →
      ∀ b ∈ flushedBatches (classifyLoop B rows ups),
        b.length ≤ B * 2 ∧ b ≠ [] := by
  intro rows
  induction rows with
  | nil =>
    intro ups _ hlen b hb
    simp only [classifyLoop] at hb
    split at hb
    · rw [flushedBatches_nil] at hb
      cases hb
    · rename_i hne
      rw [flushedBatches_flush, flushedBatches_nil, List.mem_singleton] at hb
      subst hb
      exact ⟨by omega, hne⟩
  | cons o rest ih =>
    intro ups hmod hlen b hb
    cases o with
    | none => exact ih ups hmod hlen b (by simpa [classifyLoop] using hb)
    | some u =>
      simp only [classifyLoop] at hb
      split at hb
      · rw [flushedBatches_flush, flushedBatches_sleep, List.mem_cons] at hb
        rcases hb with rfl | hb
        · refine ⟨by simp; omega, by simp⟩
        · exact ih [] (by simp) (by simp only [List.length_nil]; omega) b hb
      · have h2 : (ups ++ [u.fst, u.snd]).length % 2 = 0 := by simp; omega
        have h3 : (ups ++ [u.fst, u.snd]).length + 2 ≤ B * 2 := by
          rename_i hsmall
          simp only [List.length_append, List.length_cons, List.length_nil] at *
          omega
        exact ih (ups ++ [u.fst, u.snd]) h2 h3 b hb

/-- Every flush is followed by a 2.5-second sleep except a final
remainder flush. -/
lemma classifyLoop_wf (B : Nat) :
    ∀ (rows : List (Option (CellUpdate × CellUpdate))) (ups : List CellUpdate),
      wellFormedTrace (classifyLoop B rows ups) = true := by
  intro rows
  induction rows with
  | nil =>
    intro ups
    simp only [classifyLoop]
    split
    · rfl
    · rfl
  | cons o rest ih =>
    intro ups
    cases o with
    | none => simpa [classifyLoop] using ih ups
    | some u =>
      simp only [classifyLoop]
      split
      · simp [wellFormedTrace, ih]
      · exact ih _

/-- C8: with a positive batch size `B` (default 30), the pending-update list
handed to any flush has at most `B * 2` entries (so at most 60 by default)
and is non-empty; concatenating all flushed batches yields exactly the
updates the rows produce, each written once and in order; and the event
trace alternates flush / 2.5-second sleep with at most one trailing
remainder flush. -/
theorem c8_batch_flush_discipline (B : Nat)
    (rows : List (Option (CellUpdate × CellUpdate))) (hB : 1 ≤ B) :
    (∀ b ∈ flushedBatches (classifyLoop B rows []),
      b.length ≤ B * 2 ∧ b ≠ []) ∧
    (flushedBatches (classifyLoop B rows [])).flatten = producedUpdates rows ∧
    wellFormedTrace (classifyLoop B rows []) = true := by
  refine ⟨classifyLoop_bound B hB rows [] (by simp)
      (by simp only [List.length_nil]; omega), ?_,
    classifyLoop_wf B rows []⟩
  simpa using classifyLoop_join B rows []

/-- Witness for C8 at the default batch size 30 with one classified and one
skipped row. -/
theorem c8_batch_flush_discipline_witness :
    (flushedBatches (classifyLoop 30
        [some (⟨2, 7, Cell.str "sexist"⟩, ⟨2, 8, Cell.int 1⟩),
         Option.none] [])).flatten
      = producedUpdates
          [some (⟨2, 7, Cell.str "sexist"⟩, ⟨2, 8, Cell.int 1⟩), Option.none] ∧
    wellFormedTrace (classifyLoop 30
        [some (⟨2, 7, Cell.str "sexist"⟩, ⟨2, 8, Cell.int 1⟩), Option.none] [])
      = true := by
  have h := c8_batch_flush_discipline 30
    [some (⟨2, 7, Cell.str "sexist"⟩, ⟨2, 8, Cell.int 1⟩), Option.none]
    (by decide)
  exact ⟨h.2.1, h.2.2⟩

/-- C10 counterexample: a Caption cell containing the number 0 (a non-empty
cell, numericised by the sheet client) is Python-falsy, so the script
overwrites it even though the claim says a non-empty Caption is never
overwritten. -/
theorem c10_zero_caption_overwritten :
    process_caption_file "uwaterlooconfessions-4821-2023-01-05_10-20-30-UTC.txt"
        "new caption" [⟨PyVal.str "4821", PyVal.num 0, []⟩]
      = [⟨PyVal.str "4821", PyVal.str "new caption", []⟩] ∧
    PyVal.num 0 ≠ PyVal.str "" ∧ PyVal.num 0 ≠ PyVal.none := by
  decide

/-- C10 (amended): a caption file changes at most one cell — the Caption
cell of the first row whose Post ID matches the id extracted from the
filename and whose Caption is Python-falsy (empty, missing, or the number
0); a row whose Caption is truthy is never overwritten; every other cell of
every row, and every row when the filename does not match the pattern or no
row qualifies, is left unchanged. -/
theorem c10_caption_frame_effect :
    ∀ (pid cap : String) (sheet : List CaptionRow),
      ((∀ r ∈ sheet, ¬(pyStr r.post_id = pid ∧ r.caption.truthy = false)) →
        update_caption pid cap sheet = sheet) ∧
      (∀ i : Nat, ∀ hi : i < sheet.length,
        (pyStr (sheet.get ⟨i, hi⟩).post_id = pid ∧
          (sheet.get ⟨i, hi⟩).caption.truthy = false) →
        (∀ j, j < i → ∀ hj : j < sheet.length,
          ¬(pyStr (sheet.get ⟨j, hj⟩).post_id = pid ∧
            (sheet.get ⟨j, hj⟩).caption.truthy = false)) →
        update_caption pid cap sheet =
          sheet.take i ++
            ({ sheet.get ⟨i, hi⟩ with caption := PyVal.str cap } ::
              sheet.drop (i + 1))) ∧
      (∀ fn content, get_post_id_from_filename fn = Option.none →
        process_caption_file fn content sheet = sheet) ∧
      (∀ fn content p, get_post_id_from_filename fn = some p →
        process_caption_file fn content sheet =
          update_caption p (pyStrip content) sheet) := by
  intro pid cap sheet
  refine ⟨?_, ?_, ?_, ?_⟩
  · induction sheet with
    | nil => intro _; rfl
    | cons r rs ih =>
      intro h
      have hr := h r (List.mem_cons_self r rs)
      rw [update_caption, if_neg ?_]
      · rw [ih (fun x hx => h x (List.mem_cons_of_mem r hx))]
      · intro hc
        exact hr ⟨hc.1, by simpa using hc.2⟩
  · induction sheet with
    | nil => intro i hi; simp at hi
    | cons r rs ih =>
      intro i hi hcond hfirst
      cases i with
      | zero =>
        simp only [List.get] at hcond
        rw [update_caption, if_pos ⟨hcond.1, by simp [hcond.2]⟩]
        simp
      | succ k =>
        have h0 : ¬(pyStr r.post_id = pid ∧ r.caption.truthy = false) := by
          have := hfirst 0 (Nat.succ_pos k) (by omega)
          simpa using this
        rw [update_caption, if_neg ?_]
        · have hk : k < rs.length := by simpa using hi
          have := ih k hk (by simpa using hcond)
            (fun j hj hj2 => by
              have := hfirst (j + 1) (by omega) (by simpa using hj2)
              simpa using this)
          rw [this]
          simp
        · intro hc
          exact h0 ⟨hc.1, by simpa using hc.2⟩
  · intro fn content h
    simp [process_caption_file, h]
  · intro fn content p h
    simp [process_caption_file, h]

/-- Witness for C10: on a two-row sheet the second row (first falsy-caption
match) gets the caption, the first row keeps its caption. -/
theorem c10_caption_frame_effect_witness :
    update_caption "4821" "hi"
        [⟨PyVal.str "4821", PyVal.str "full", [Cell.int 9]⟩,
         ⟨PyVal.num 4821, PyVal.str "", []⟩]
      = [⟨PyVal.str "4821", PyVal.str "full", [Cell.int 9]⟩,
         ⟨PyVal.num 4821, PyVal.str "hi", []⟩] := by
  have h := (c10_caption_frame_effect "4821" "hi"
      [⟨PyVal.str "4821", PyVal.str "full", [Cell.int 9]⟩,
       ⟨PyVal.num 4821, PyVal.str "", []⟩]).2.1 1 (by decide)
      (by decide) (fun j hj hj2 => by
        interval_cases j
        simp [List.get, pyStr, PyVal.truthy])
  simpa using h

/-- `takeWhile` stops exactly at the first failing element. -/
lemma takeWhile_all (p : Char → Bool) :
    ∀ (d : List Char) (c : Char) (r : List Char), d.all p = true → p c = false →
      (d ++ c :: r).takeWhile p = d := by
  intro d
  induction d with
  | nil => intro c r _ hc; simp [List.takeWhile_cons, hc]
  | cons a d ih =>
    intro c r hall hc
    simp only [List.all_cons, Bool.and_eq_true] at hall
    simp [List.takeWhile_cons, hall.1, ih c r hall.2 hc]

/-- A regex attempt at the start of `uwaterlooconfessions-<digits>-<rest>`
captures exactly the digit run. -/
lemma matchConfAt_pos (d rest : List Char) (hd : d ≠ [])
    (hdig : d.all Char.isDigit = true) :
    matchConfAt (confLiteral ++ d ++ Char.ofNat 45 :: rest)
      = some (String.mk d) := by
  have h45 : Char.isDigit (Char.ofNat 45) = false := by decide
  simp only [matchConfAt, List.append_assoc, List.take_left, if_pos rfl,
    List.drop_left, takeWhile_all Char.isDigit d (Char.ofNat 45) rest hdig h45]
  simp [hd]

/-- A successful attempt anywhere makes the scan succeed (the scan tries the
current position first). -/
lemma extractPostIdAux_of_match :
    ∀ (l : List Char) (s : String),
      matchConfAt l = some s → extractPostIdAux l = some s := by
  intro l s h
  cases l with
  | nil =>
    rw [show matchConfAt ([] : List Char) = Option.none from by decide] at h
    cases h
  | cons c r => simp [extractPostIdAux, h]

/-- The scan returns `None` exactly when no position matches. -/
lemma extractPostIdAux_none_iff :
    ∀ l : List Char, extractPostIdAux l = Option.none ↔
      ∀ t, t <:+ l → matchConfAt t = Option.none := by
  intro l
  induction l with
  | nil =>
    constructor
    · intro _ t ht
      rw [List.suffix_nil] at ht
      subst ht
      decide
    · intro _; rfl
  | cons c r ih =>
    constructor
    · intro h t ht
      rw [List.suffix_cons_iff] at ht
      simp only [extractPostIdAux] at h
      cases hm : matchConfAt (c :: r) with
      | some s => rw [hm] at h; cases h
      | none =>
        rw [hm] at h
        rcases ht with rfl | ht
        · exact hm
        · exact ih.mp h t ht
    · intro h
      simp only [extractPostIdAux]
      rw [h (c :: r) (List.suffix_refl _)]
      exact ih.mpr (fun t ht => h t (ht.trans (List.suffix_cons c r)))

/-- Python `split` produces one part more than the number of separators. -/
lemma pySplitAux_length (sep : Char) :
    ∀ (l acc : List Char),
      (pySplitAux sep l acc).length = 1 + l.count sep := by
  intro l
  induction l with
  | nil => intro acc; simp [pySplitAux]
  | cons c r ih =>
    intro acc
    by_cases hc : c = sep
    · subst hc
      have hcount : (c :: r).count c = r.count c + 1 := by simp
      simp only [pySplitAux, eq_self_iff_true, if_true, List.length_cons]
      rw [ih [], hcount]
      omega
    · have hcount : (c :: r).count sep = r.count sep := by
        simp [List.count_cons, hc]
      simp only [pySplitAux, if_neg hc]
      rw [ih (c :: acc), hcount]

/-- A filename containing a hyphen splits into at least two parts, so
`parts[1]` exists and `process_filename` returns normally. -/
lemma process_filename_ok (f : String) (h : Char.ofNat 45 ∈ f.toList) :
    ∃ pd, process_filename f = Except.ok pd := by
  have hlen := pySplitAux_length (Char.ofNat 45) f.toList []
  have hc : 0 < f.toList.count (Char.ofNat 45) := List.count_pos_iff.mpr h
  unfold process_filename pySplitDash
  cases hsp : pySplitAux (Char.ofNat 45) f.toList [] with
  | nil => rw [hsp] at hlen; simp only [List.length_nil] at hlen; omega
  | cons a t =>
    cases t with
    | nil =>
      rw [hsp] at hlen
      simp only [List.length_cons, List.length_nil] at hlen
      omega
    | cons b t2 => exact ⟨_, rfl⟩

/-- A filename with no hyphen splits into a single part, so `parts[1]`
raises `IndexError`. -/
lemma process_filename_err (f : String) (h : Char.ofNat 45 ∉ f.toList) :
    process_filename f = Except.error "IndexError" := by
  have hlen := pySplitAux_length (Char.ofNat 45) f.toList []
  have hc : f.toList.count (Char.ofNat 45) = 0 := List.count_eq_zero.mpr h
  unfold process_filename pySplitDash
  cases hsp : pySplitAux (Char.ofNat 45) f.toList [] with
  | nil => rfl
  | cons a t =>
    cases t with
    | nil => rfl
    | cons b t2 =>
      rw [hsp, hc] at hlen
      simp only [List.length_cons] at hlen
      omega

/-- C5 counterexample: on the non-matching filename "foo.jpg" (no hyphen),
`process_filename` does not return a null result — `parts[1]` raises
`IndexError` — contradicting the claim that non-matching filenames yield
`None` without raising. -/
theorem c5_process_filename_raises :
    process_filename "foo.jpg" = Except.error "IndexError" := by
  rfl

/-- C5 (amended): for every filename of the expected pattern,
`extract_post_id` returns exactly the digit substring between the fixed
delimiters, and it returns `None` (never raising) exactly when no position
matches the regex; `process_filename` returns the split fields for any
filename containing a hyphen (matching the pattern or not) but raises
`IndexError` on a filename with no hyphen; on the example filename it
returns post id "4821" and post date "2023-01-05_10-20-30-UTC". -/
theorem c5_filename_parsing :
    (∀ (d rest : List Char), d ≠ [] → d.all Char.isDigit = true →
      extract_post_id (String.mk (confLiteral ++ d ++ Char.ofNat 45 :: rest))
        = some (String.mk d)) ∧
    (∀ f : String, extract_post_id f = Option.none ↔
      ∀ t, t <:+ f.toList → matchConfAt t = Option.none) ∧
    (∀ f : String, Char.ofNat 45 ∈ f.toList →
      ∃ pd, process_filename f = Except.ok pd) ∧
    (∀ f : String, Char.ofNat 45 ∉ f.toList →
      process_filename f = Except.error "IndexError") ∧
    process_filename "uwaterlooconfessions-4821-2023-01-05_10-20-30-UTC.jpg"
      = Except.ok ("4821", "2023-01-05_10-20-30-UTC") := by
  refine ⟨fun d rest hd hdig => ?_, fun f => ?_, process_filename_ok,
    process_filename_err, by rfl⟩
  · exact extractPostIdAux_of_match _ _ (matchConfAt_pos d rest hd hdig)
  · exact extractPostIdAux_none_iff f.toList

/-- Witness for C5 on the example filename and a hyphen-less name. -/
theorem c5_filename_parsing_witness :
    extract_post_id
        (String.mk (confLiteral ++ "4821".toList ++ Char.ofNat 45 :: "x".toList))
      = some (String.mk "4821".toList) ∧
    (∃ pd, process_filename "a-b" = Except.ok pd) := by
  constructor
  · exact c5_filename_parsing.1 "4821".toList "x".toList (by decide) (by decide)
  · exact c5_filename_parsing.2.2.1 "a-b" (by decide)

/-- The OCR run appends only rows whose filename was not in the fetched
list, in directory order (their filenames form a sublist of the listing). -/
lemma ocrRun_spec :
    ∀ (fs : List ImageFile) (ex : List String) (sheet : ConfessionSheet),
      ∃ B, (ocrRun fs ex sheet).fst.rows = sheet.rows ++ B ∧
        (∀ r ∈ B, r.filename ∉ ex) ∧
        (B.map ConfessionRow.filename).Sublist (fs.map ImageFile.name) := by
  intro fs
  induction fs with
  | nil =>
    intro ex sheet
    exact ⟨[], by simp [ocrRun], by simp, by simp⟩
  | cons f fs ih =>
    intro ex sheet
    simp only [ocrRun]
    by_cases hjpg : f.name.endsWith ".jpg" = true
    · rw [if_pos hjpg]
      by_cases hex : f.name ∈ ex
      · rw [if_pos hex]
        obtain ⟨B, e, d, sub⟩ := ih ex sheet
        exact ⟨B, e, d, sub.trans (List.sublist_cons_self _ _)⟩
      · rw [if_neg hex]
        cases hpf : process_filename f.name with
        | error err => exact ⟨[], by simp, by simp, by simp⟩
        | ok pd =>
          obtain ⟨B, e, d, sub⟩ := ih ex
            ⟨sheet.rows ++ [⟨f.name, pd.fst, pd.snd, ocr_image f.engine⟩]⟩
          refine ⟨⟨f.name, pd.fst, pd.snd, ocr_image f.engine⟩ :: B, ?_, ?_, ?_⟩
          · rw [e]
            simp
          · intro r hr
            rcases List.mem_cons.mp hr with rfl | hr
            · exact hex
            · exact d r hr
          · simp only [List.map_cons]
            exact List.Sublist.cons₂ _ sub
    · rw [if_neg hjpg]
      obtain ⟨B, e, d, sub⟩ := ih ex sheet
      exact ⟨B, e, d, sub.trans (List.sublist_cons_self _ _)⟩

/-- Replaying the OCR run against its own output changes nothing: every row
appended by the first run is in the filename list fetched by the second, a
file skipped by the first is skipped again, and a file that crashed the
first run crashes the second at the same point. -/
lemma ocrRun_second :
    ∀ (fs : List ImageFile) (ex : List String) (sheet : ConfessionSheet),
      (fs.map ImageFile.name).Nodup →
      (∀ f ∈ fs, f.name ∉ ex → f.name ∉ sheet.rows.map ConfessionRow.filename) →
      (∀ a ∈ ex, a ∈ sheet.rows.map ConfessionRow.filename) →
      ocrRun fs (confession_filenames (ocrRun fs ex sheet).fst)
          (ocrRun fs ex sheet).fst
        = ocrRun fs ex sheet := by
  intro fs
  induction fs with
  | nil => intro ex sheet _ _ _; rfl
  | cons f fs ih =>
    intro ex sheet hnd h3 h4
    have hnd2 : (fs.map ImageFile.name).Nodup := by
      simp only [List.map_cons, List.nodup_cons] at hnd
      exact hnd.2
    have hfn : f.name ∉ fs.map ImageFile.name := by
      simp only [List.map_cons, List.nodup_cons] at hnd
      exact hnd.1
    by_cases hjpg : f.name.endsWith ".jpg" = true
    · by_cases hex : f.name ∈ ex
      · -- skipped by the first run, hence present in the fetched list
        have hstep : ocrRun (f :: fs) ex sheet = ocrRun fs ex sheet := by
          simp only [ocrRun, if_pos hjpg, if_pos hex]
        rw [hstep]
        obtain ⟨B, e, _, _⟩ := ocrRun_spec fs ex sheet
        have hmem : f.name ∈ confession_filenames (ocrRun fs ex sheet).fst := by
          unfold confession_filenames
          rw [e, List.map_append, List.mem_append]
          exact Or.inl (h4 f.name hex)
        have h3b : ∀ g ∈ fs, g.name ∉ ex →
            g.name ∉ sheet.rows.map ConfessionRow.filename :=
          fun g hg => h3 g (List.mem_cons_of_mem _ hg)
        calc ocrRun (f :: fs) (confession_filenames (ocrRun fs ex sheet).fst)
              (ocrRun fs ex sheet).fst
            = ocrRun fs (confession_filenames (ocrRun fs ex sheet).fst)
              (ocrRun fs ex sheet).fst := by
              simp only [ocrRun, if_pos hjpg, if_pos hmem]
          _ = ocrRun fs ex sheet := ih ex sheet hnd2 h3b h4
      · have hns : f.name ∉ sheet.rows.map ConfessionRow.filename :=
          h3 f (List.mem_cons_self _ _) hex
        cases hpf : process_filename f.name with
        | error err =>
          -- first run aborts here; second run reaches the same file and aborts
          have hstep : ocrRun (f :: fs) ex sheet = (sheet, some err) := by
            simp only [ocrRun, if_pos hjpg, if_neg hex, hpf]
          rw [hstep]
          have hmem : f.name ∉ confession_filenames sheet := hns
          simp only [ocrRun, if_pos hjpg, if_neg hmem, hpf]
        | ok pd =>
          have hstep : ocrRun (f :: fs) ex sheet =
              ocrRun fs ex
                ⟨sheet.rows ++ [⟨f.name, pd.fst, pd.snd, ocr_image f.engine⟩]⟩ := by
            simp only [ocrRun, if_pos hjpg, if_neg hex, hpf]
          rw [hstep]
          obtain ⟨B, e, _, _⟩ := ocrRun_spec fs ex
            ⟨sheet.rows ++ [⟨f.name, pd.fst, pd.snd, ocr_image f.engine⟩]⟩
          have hmem : f.name ∈ confession_filenames
              (ocrRun fs ex
                ⟨sheet.rows ++ [⟨f.name, pd.fst, pd.snd, ocr_image f.engine⟩]⟩).fst := by
            unfold confession_filenames
            rw [e, List.map_append, List.mem_append]
            exact Or.inl (by simp)
          have h3b : ∀ g ∈ fs, g.name ∉ ex →
              g.name ∉ (sheet.rows ++
                ([⟨f.name, pd.fst, pd.snd, ocr_image f.engine⟩] :
                  List ConfessionRow)).map
                  ConfessionRow.filename := by
            intro g hg hgex
            rw [List.map_append, List.mem_append]
            rintro (hcase | hcase)
            · exact h3 g (List.mem_cons_of_mem _ hg) hgex hcase
            · simp only [List.map_cons, List.map_nil, List.mem_singleton] at hcase
              apply hfn
              rw [← hcase]
              exact List.mem_map_of_mem ImageFile.name hg
          have h4b : ∀ a ∈ ex, a ∈ (sheet.rows ++
              ([⟨f.name, pd.fst, pd.snd, ocr_image f.engine⟩] :
                List ConfessionRow)).map
                ConfessionRow.filename := by
            intro a ha
            rw [List.map_append, List.mem_append]
            exact Or.inl (h4 a ha)
          calc ocrRun (f :: fs)
                (confession_filenames (ocrRun fs ex
                  ⟨sheet.rows ++ [⟨f.name, pd.fst, pd.snd, ocr_image f.engine⟩]⟩).fst)
                (ocrRun fs ex
                  ⟨sheet.rows ++ [⟨f.name, pd.fst, pd.snd, ocr_image f.engine⟩]⟩).fst
              = ocrRun fs
                (confession_filenames (ocrRun fs ex
                  ⟨sheet.rows ++ [⟨f.name, pd.fst, pd.snd, ocr_image f.engine⟩]⟩).fst)
                (ocrRun fs ex
                  ⟨sheet.rows ++ [⟨f.name, pd.fst, pd.snd, ocr_image f.engine⟩]⟩).fst := by
                simp only [ocrRun, if_pos hjpg, if_pos hmem]
            _ = ocrRun fs ex
                ⟨sheet.rows ++ [⟨f.name, pd.fst, pd.snd, ocr_image f.engine⟩]⟩ :=
                ih ex _ hnd2 h3b h4b
    · have hstep : ocrRun (f :: fs) ex sheet = ocrRun fs ex sheet := by
        simp only [ocrRun, if_neg hjpg]
      rw [hstep]
      have h3b : ∀ g ∈ fs, g.name ∉ ex →
          g.name ∉ sheet.rows.map ConfessionRow.filename :=
        fun g hg => h3 g (List.mem_cons_of_mem _ hg)
      calc ocrRun (f :: fs) (confession_filenames (ocrRun fs ex sheet).fst)
            (ocrRun fs ex sheet).fst
          = ocrRun fs (confession_filenames (ocrRun fs ex sheet).fst)
            (ocrRun fs ex sheet).fst := by
            simp only [ocrRun, if_neg hjpg]
        _ = ocrRun fs ex sheet := ih ex sheet hnd2 h3b h4


/-- C1 counterexample: `comment["id"]` is a JSON int while the keys fetched
by `col_values(3)` are strings, and Python's `7 in {"7"}` is `False`, so the
dedup check never matches a key fetched from the store: running the comment
ingestion twice over one file holding the single comment id 7 leaves the
store with two rows whose key column reads ["7", "7"] — a duplicate key,
refuting the claimed skip of candidates already in the store and the claimed
idempotence of a second run. -/
theorem c1_second_run_duplicates :
    get_existing_comment_ids
        (process_directory
          [⟨"uwaterlooconfessions-9-comments.json", [⟨7, 0, "u", 1, "t"⟩]⟩]
          (process_directory
            [⟨"uwaterlooconfessions-9-comments.json", [⟨7, 0, "u", 1, "t"⟩]⟩]
            ⟨[]⟩))
      = ["7", "7"] ∧
    ¬ (get_existing_comment_ids
        (process_directory
          [⟨"uwaterlooconfessions-9-comments.json", [⟨7, 0, "u", 1, "t"⟩]⟩]
          (process_directory
            [⟨"uwaterlooconfessions-9-comments.json", [⟨7, 0, "u", 1, "t"⟩]⟩]
            ⟨[]⟩))).Nodup := by
  decide

/-- An `int` key is in the image of `PyKey.int` exactly when the underlying
integer is in the list. -/
lemma mem_map_int_iff (k : Int) (l : List Int) :
    PyKey.int k ∈ l.map PyKey.int ↔ k ∈ l := by
  constructor
  · intro h
    obtain ⟨x, hx, he⟩ := List.mem_map.mp h
    injection he with he2
    rw [← he2]
    exact hx
  · exact List.mem_map_of_mem PyKey.int

/-- The comment loop of one file: batched ids are new to the running set and
mutually distinct, the set afterwards is the old set plus the batched ids as
`int` keys, and every comment id of the file ends up in the set. -/
lemma processComments_spec (pid : String) :
    ∀ (cs : List Comment) (ex : List PyKey),
      ((processComments pid cs ex).snd.map Prod.fst).Nodup ∧
      (∀ k ∈ (processComments pid cs ex).snd.map Prod.fst,
        PyKey.int k ∉ ex) ∧
      (∀ a, a ∈ (processComments pid cs ex).fst ↔
        a ∈ ex ∨
        a ∈ ((processComments pid cs ex).snd.map Prod.fst).map PyKey.int) ∧
      (∀ c ∈ cs, PyKey.int c.id ∈ (processComments pid cs ex).fst) := by
  intro cs
  induction cs with
  | nil =>
    intro ex
    exact ⟨List.nodup_nil, by simp [processComments], fun a => by
      simp [processComments], by simp⟩
  | cons c cs ih =>
    intro ex
    by_cases hc : PyKey.int c.id ∈ ex
    · simp only [processComments, if_pos hc]
      obtain ⟨h1, h2, h3, h4⟩ := ih ex
      refine ⟨h1, h2, h3, ?_⟩
      intro x hx
      rcases List.mem_cons.mp hx with rfl | hx
      · exact (h3 (PyKey.int x.id)).mpr (Or.inl hc)
      · exact h4 x hx
    · simp only [processComments, if_neg hc]
      obtain ⟨h1, h2, h3, h4⟩ := ih (PyKey.int c.id :: ex)
      refine ⟨?_, ?_, ?_, ?_⟩
      · simp only [List.map_cons]
        refine List.nodup_cons.mpr ⟨?_, h1⟩
        intro hmem
        exact (h2 c.id hmem) (List.mem_cons_self _ _)
      · intro k hk
        simp only [List.map_cons, List.mem_cons] at hk
        rcases hk with rfl | hk
        · exact hc
        · intro hkex
          exact h2 k hk (List.mem_cons_of_mem _ hkex)
      · intro a
        rw [h3 a]
        simp only [List.map_cons, List.mem_cons]
        tauto
      · intro x hx
        rcases List.mem_cons.mp hx with rfl | hx
        · exact (h3 (PyKey.int x.id)).mpr (Or.inl (List.mem_cons_self _ _))
        · exact h4 x hx

/-- One file appends only rows with mutually distinct ids new to the running
set, extends the set by exactly those `int` keys, and (when the post id
extracts) records every comment id of the file in the set. -/
lemma process_comment_file_spec (f : CommentFile) (sheet : CommentSheet)
    (ex : List PyKey) :
    ∃ A, (process_comment_file f sheet ex).fst.rows = sheet.rows ++ A ∧
      (A.map Prod.fst).Nodup ∧
      (∀ k ∈ A.map Prod.fst, PyKey.int k ∉ ex) ∧
      (∀ a, a ∈ (process_comment_file f sheet ex).snd ↔
        a ∈ ex ∨ a ∈ (A.map Prod.fst).map PyKey.int) ∧
      (∀ pid, extract_post_id f.filename = some pid →
        ∀ c ∈ f.comments,
          PyKey.int c.id ∈ (process_comment_file f sheet ex).snd) := by
  unfold process_comment_file
  cases hpid : extract_post_id f.filename with
  | none =>
    exact ⟨[], by simp, List.nodup_nil, by simp, fun a => by simp,
      fun pid h => by cases h⟩
  | some pid =>
    obtain ⟨h1, h2, h3, h4⟩ := processComments_spec pid f.comments ex
    refine ⟨(processComments pid f.comments ex).snd, rfl, h1, h2, h3, ?_⟩
    intro pid2 hp c hc
    cases hp
    exact h4 c hc

/-- The directory loop: the sheet grows by rows with mutually distinct ids,
none of whose `int` keys were in the fetched set, and the set afterwards is
the fetched set plus those keys. -/
lemma processFiles_spec :
    ∀ (fs : List CommentFile) (sheet : CommentSheet) (ex : List PyKey),
      ∃ A, (processFiles fs sheet ex).fst.rows = sheet.rows ++ A ∧
        (A.map Prod.fst).Nodup ∧
        (∀ k ∈ A.map Prod.fst, PyKey.int k ∉ ex) ∧
        (∀ a, a ∈ (processFiles fs sheet ex).snd ↔
          a ∈ ex ∨ a ∈ (A.map Prod.fst).map PyKey.int) := by
  intro fs
  induction fs with
  | nil =>
    intro sheet ex
    exact ⟨[], by simp [processFiles], List.nodup_nil, by simp,
      fun a => by simp [processFiles]⟩
  | cons f fs ih =>
    intro sheet ex
    by_cases hm : matches_comment_pattern f.filename = true
    · simp only [processFiles, if_pos hm]
      obtain ⟨A1, e1, n1, d1, m1, _⟩ := process_comment_file_spec f sheet ex
      obtain ⟨A2, e2, n2, d2, m2⟩ :=
        ih (process_comment_file f sheet ex).fst
          (process_comment_file f sheet ex).snd
      refine ⟨A1 ++ A2, ?_, ?_, ?_, ?_⟩
      · rw [e2, e1, List.append_assoc]
      · rw [List.map_append]
        refine List.nodup_append.mpr ⟨n1, n2, ?_⟩
        intro k hk1 hk2
        exact d2 k hk2 ((m1 (PyKey.int k)).mpr
          (Or.inr ((mem_map_int_iff k _).mpr hk1)))
      · intro k hk
        rw [List.map_append, List.mem_append] at hk
        rcases hk with hk | hk
        · exact d1 k hk
        · intro hke
          exact d2 k hk ((m1 (PyKey.int k)).mpr (Or.inl hke))
      · intro a
        rw [m2 a, m1 a, List.map_append, List.map_append, List.mem_append]
        tauto
    · simp only [processFiles, if_neg hm]
      exact ih sheet ex

/-- The dedup test only ever fires on `int` keys, so the batched rows and
the final set's `int` keys depend only on the `int` keys of the starting
set — never on the strings fetched from the store. -/
lemma processComments_int_inv (pid : String) :
    ∀ (cs : List Comment) (ex ex' : List PyKey),
      (∀ n : Int, PyKey.int n ∈ ex ↔ PyKey.int n ∈ ex') →
      (processComments pid cs ex).snd = (processComments pid cs ex').snd ∧
      (∀ n : Int, PyKey.int n ∈ (processComments pid cs ex).fst ↔
        PyKey.int n ∈ (processComments pid cs ex').fst) := by
  intro cs
  induction cs with
  | nil => intro ex ex' h; exact ⟨rfl, h⟩
  | cons c cs ih =>
    intro ex ex' h
    by_cases hc : PyKey.int c.id ∈ ex
    · have hc' : PyKey.int c.id ∈ ex' := (h c.id).mp hc
      simp only [processComments, if_pos hc, if_pos hc']
      exact ih ex ex' h
    · have hc' : PyKey.int c.id ∉ ex' := fun hx => hc ((h c.id).mpr hx)
      simp only [processComments, if_neg hc, if_neg hc']
      obtain ⟨h1, h2⟩ := ih (PyKey.int c.id :: ex) (PyKey.int c.id :: ex')
        (fun n => by
          simp only [List.mem_cons]
          rw [h n])
      exact ⟨by rw [h1], h2⟩

/-- The directory loop appends the same block of rows whatever the store and
its fetched string keys are: starting sets agreeing on `int` keys produce
identical appends. -/
lemma processFiles_uniform :
    ∀ (fs : List CommentFile) (sheet₁ sheet₂ : CommentSheet)
      (ex₁ ex₂ : List PyKey),
      (∀ n : Int, PyKey.int n ∈ ex₁ ↔ PyKey.int n ∈ ex₂) →
      ∃ A, (processFiles fs sheet₁ ex₁).fst.rows = sheet₁.rows ++ A ∧
        (processFiles fs sheet₂ ex₂).fst.rows = sheet₂.rows ++ A ∧
        (∀ n : Int, PyKey.int n ∈ (processFiles fs sheet₁ ex₁).snd ↔
          PyKey.int n ∈ (processFiles fs sheet₂ ex₂).snd) := by
  intro fs
  induction fs with
  | nil =>
    intro s1 s2 e1 e2 h
    exact ⟨[], by simp [processFiles], by simp [processFiles], h⟩
  | cons f fs ih =>
    intro s1 s2 e1 e2 h
    by_cases hm : matches_comment_pattern f.filename = true
    · simp only [processFiles, if_pos hm]
      cases hpid : extract_post_id f.filename with
      | none =>
        have q1 : process_comment_file f s1 e1 = (s1, e1) := by
          unfold process_comment_file
          rw [hpid]
        have q2 : process_comment_file f s2 e2 = (s2, e2) := by
          unfold process_comment_file
          rw [hpid]
        rw [q1, q2]
        exact ih s1 s2 e1 e2 h
      | some pid =>
        obtain ⟨hsnd, hfst⟩ := processComments_int_inv pid f.comments e1 e2 h
        have q1 : process_comment_file f s1 e1 =
            (⟨s1.rows ++ (processComments pid f.comments e1).snd⟩,
             (processComments pid f.comments e1).fst) := by
          unfold process_comment_file
          rw [hpid]
        have q2 : process_comment_file f s2 e2 =
            (⟨s2.rows ++ (processComments pid f.comments e2).snd⟩,
             (processComments pid f.comments e2).fst) := by
          unfold process_comment_file
          rw [hpid]
        rw [q1, q2]
        obtain ⟨A, a1, a2, a3⟩ :=
          ih ⟨s1.rows ++ (processComments pid f.comments e1).snd⟩
            ⟨s2.rows ++ (processComments pid f.comments e2).snd⟩
            (processComments pid f.comments e1).fst
            (processComments pid f.comments e2).fst hfst
        refine ⟨(processComments pid f.comments e1).snd ++ A, ?_, ?_, a3⟩
        · rw [a1]
          simp [List.append_assoc]
        · rw [a2, hsnd]
          simp [List.append_assoc]
    · simp only [processFiles, if_neg hm]
      exact ih s1 s2 e1 e2 h

/-- C1 (amended): the OCR ingestion deduplicates by Filename as claimed —
appended rows carry only filenames absent from the fetched list, mutually
distinct, a duplicate-free Filename column stays duplicate-free, and a
second run appends nothing.  The comment ingestion deduplicates only within
a single run: the appended block `A` has mutually distinct comment ids, but
the fetched keys are strings while the JSON ids are ints, so the membership
test never matches the store — the same block `A` is appended whatever the
store already holds, and a second run appends it again, duplicating every
key of `A`. -/
theorem c1_ingestion_dedup_behaviour
    (files : List CommentFile) (imgs : List ImageFile)
    (csheet : ConfessionSheet)
    (hnames : (imgs.map ImageFile.name).Nodup)
    (hckeys : (confession_filenames csheet).Nodup) :
    (∃ A : List (Int × List Cell),
      (A.map Prod.fst).Nodup ∧
      (∀ sheet : CommentSheet,
        (process_directory files sheet).rows = sheet.rows ++ A) ∧
      (∀ sheet : CommentSheet,
        (process_directory files (process_directory files sheet)).rows
          = sheet.rows ++ A ++ A)) ∧
    (∃ B, (check_and_append_rows imgs csheet).fst.rows = csheet.rows ++ B ∧
      (∀ r ∈ B, r.filename ∉ confession_filenames csheet)) ∧
    (confession_filenames (check_and_append_rows imgs csheet).fst).Nodup ∧
    check_and_append_rows imgs (check_and_append_rows imgs csheet).fst
      = check_and_append_rows imgs csheet := by
  obtain ⟨B, e2, d2, sub⟩ :=
    ocrRun_spec imgs (confession_filenames csheet) csheet
  refine ⟨?_, ⟨B, e2, d2⟩, ?_, ?_⟩
  · obtain ⟨A0, e0, n0, d0, m0⟩ := processFiles_spec files ⟨[]⟩ []
    have huni : ∀ sheet : CommentSheet,
        (process_directory files sheet).rows = sheet.rows ++ A0 := by
      intro sheet
      obtain ⟨A, a1, a2, a3⟩ := processFiles_uniform files sheet ⟨[]⟩
        ((get_existing_comment_ids sheet).map PyKey.str) []
        (fun n => by simp [List.mem_map])
      have hA : A = A0 := by
        have := a2.symm.trans e0
        simpa using this
      show (processFiles files sheet
          ((get_existing_comment_ids sheet).map PyKey.str)).fst.rows
        = sheet.rows ++ A0
      rw [a1, hA]
    refine ⟨A0, n0, huni, ?_⟩
    intro sheet
    rw [huni (process_directory files sheet), huni sheet]
  · have hcf : confession_filenames (check_and_append_rows imgs csheet).fst
        = confession_filenames csheet ++ B.map ConfessionRow.filename := by
      show (ocrRun imgs (confession_filenames csheet) csheet).fst.rows.map
          ConfessionRow.filename
        = confession_filenames csheet ++ B.map ConfessionRow.filename
      rw [e2, List.map_append]
      rfl
    rw [hcf]
    refine List.nodup_append.mpr ⟨hckeys, hnames.sublist sub, ?_⟩
    intro a ha1 ha2
    obtain ⟨r, hr, rfl⟩ := List.mem_map.mp ha2
    exact d2 r hr ha1
  · exact ocrRun_second imgs (confession_filenames csheet) csheet hnames
      (fun f hf hnx => hnx) (fun a ha => ha)

/-- Witness for C1 at a one-file comment directory and a one-image OCR
directory over empty stores. -/
theorem c1_ingestion_dedup_behaviour_witness :
    (∃ A : List (Int × List Cell),
      (A.map Prod.fst).Nodup ∧
      (∀ sheet : CommentSheet,
        (process_directory
          [⟨"uwaterlooconfessions-9-comments.json", [⟨7, 0, "u", 1, "t"⟩]⟩]
          sheet).rows = sheet.rows ++ A) ∧
      (∀ sheet : CommentSheet,
        (process_directory
          [⟨"uwaterlooconfessions-9-comments.json", [⟨7, 0, "u", 1, "t"⟩]⟩]
          (process_directory
            [⟨"uwaterlooconfessions-9-comments.json", [⟨7, 0, "u", 1, "t"⟩]⟩]
            sheet)).rows = sheet.rows ++ A ++ A)) ∧
    (∃ B, (check_and_append_rows
        [⟨"uwaterlooconfessions-1-2-UTC.jpg", Except.ok " hi "⟩]
        ⟨[]⟩).fst.rows = (⟨[]⟩ : ConfessionSheet).rows ++ B ∧
      (∀ r ∈ B, r.filename ∉ confession_filenames ⟨[]⟩)) ∧
    (confession_filenames (check_and_append_rows
        [⟨"uwaterlooconfessions-1-2-UTC.jpg", Except.ok " hi "⟩]
        ⟨[]⟩).fst).Nodup ∧
    check_and_append_rows
        [⟨"uwaterlooconfessions-1-2-UTC.jpg", Except.ok " hi "⟩]
        (check_and_append_rows
          [⟨"uwaterlooconfessions-1-2-UTC.jpg", Except.ok " hi "⟩] ⟨[]⟩).fst
      = check_and_append_rows
          [⟨"uwaterlooconfessions-1-2-UTC.jpg", Except.ok " hi "⟩] ⟨[]⟩ :=
  c1_ingestion_dedup_behaviour
    [⟨"uwaterlooconfessions-9-comments.json", [⟨7, 0, "u", 1, "t"⟩]⟩]
    [⟨"uwaterlooconfessions-1-2-UTC.jpg", Except.ok " hi "⟩]
    ⟨[]⟩ (by decide) (by decide)
